import Mathlib

/-
Shallow embedding of `cppobjectpool.hpp` (template class
`cppobjectpool::ObjectPool<T, Args...>`).

Modelling conventions:
- Pooled instances are identified by natural-number identities; `nextId`
  supplies fresh identities for `createObject`.
- `m_pool` (a `std::vector<std::shared_ptr<T>>`) is modelled as a
  `List Nat` whose HEAD is the BACK of the vector: `emplace_back` conses
  onto the head and `pop_back` removes the head, so acquisition order
  (LIFO) is preserved exactly.
- `m_delayedQueue` (a `std::priority_queue<DelayedObject>`, min-heap on
  expiry) is modelled as a `List (Nat × Nat)` of (expiry, id) entries.
  The source pops entries `while top.expiry <= now`; on a min-heap that
  pops exactly the set of entries whose expiry is `<= now`, which the
  model reproduces with a filter.  No verified property below depends on
  the inter-entry pop order.
- Hook invocations and object destructions are recorded as an `Event`
  trace; the three hooks are modelled by presence flags (`hasPre`,
  `hasPost`, `hasFinal`) matching `if (m_preProcess) ...` etc.
- `std::chrono::steady_clock` is a logical `clock : Nat` (milliseconds);
  `steady_clock::now()` reads it.
- `m_allocedCount` is a `std::atomic<size_t>`; it is modelled as a `Nat`.
  This is faithful while the counter stays in `[0, 2^64)` and is positive
  at each decrement, which holds in every reachable state (every
  decrement happens in the custom deleter of a live object, whose
  creation incremented the counter).  Theorems about the decrement carry
  an explicit positivity hypothesis.
- `shared_ptr` ownership: the model treats each instance as singly owned
  (by the pool vector, by one delayed-queue entry, or by one outstanding
  handle), matching the source's move-based transfers
  (`std::move(m_pool.back())`, `emplace_back(std::move(obj))`).  In
  particular `release` consumes the caller's (sole) handle: in the
  at-capacity branch the by-value `obj` parameter is the last reference,
  so its destruction at the end of `release` runs the custom deleter.
-/

namespace CppObjectPool

/-- Lifecycle events: hook invocations and instance destructions. -/
inductive Event where
  | preProcess (id : Nat)
  | postProcess (id : Nat)
  | finalProcess (id : Nat)
  | destroyed (id : Nat)
deriving DecidableEq, Repr

/-- The state of one `ObjectPool` object. -/
structure PoolState where
  /-- `m_pool`: head of the list is the back of the vector. -/
  pool : List Nat
  /-- `m_delayedQueue`: (expiry, id) entries. -/
  delayedQueue : List (Nat × Nat)
  /-- `m_allocedCount`. -/
  allocedCount : Nat
  /-- `m_maxSize`. -/
  maxSize : Nat
  /-- whether `m_preProcess` is set. -/
  hasPre : Bool
  /-- whether `m_postProcess` is set. -/
  hasPost : Bool
  /-- whether `m_finalProcess` is set. -/
  hasFinal : Bool
  /-- supply of fresh instance identities for `new T(...)`. -/
  nextId : Nat
  /-- logical `steady_clock` time in milliseconds. -/
  clock : Nat
deriving DecidableEq, Repr

/-- The custom deleter installed by `createObject`: runs when the last
reference to an instance is dropped.  It invokes `m_finalProcess` if set,
decrements `m_allocedCount`, and deletes the object.  It does NOT return
the instance to the pool. -/
def runDeleter (s : PoolState) (id : Nat) : PoolState × List Event :=
  ({ s with allocedCount := s.allocedCount - 1 },
   (if s.hasFinal then [Event.finalProcess id] else []) ++ [Event.destroyed id])

/-- `createObject`: `new T(std::get<Is>(m_constructorArgs)...)` with the
custom deleter attached.  Allocates a fresh identity.  (The caller, not
`createObject`, increments `m_allocedCount`, as in the source.) -/
def createObject (s : PoolState) : Nat × PoolState :=
  (s.nextId, { s with nextId := s.nextId + 1 })

/-- The empty pool state before the constructor's initial-fill loop. -/
def mkEmpty (maxSize : Nat) (hasPre hasPost hasFinal : Bool) : PoolState :=
  { pool := []
    delayedQueue := []
    allocedCount := 0
    maxSize := maxSize
    hasPre := hasPre
    hasPost := hasPost
    hasFinal := hasFinal
    nextId := 0
    clock := 0 }

/-- The constructor's initial-fill loop:
`for i in [0, initialSize): obj := createObject(); m_pool.emplace_back(obj); ++m_allocedCount`.
Note the loop performs NO capacity check against `m_maxSize`. -/
def initFill (s : PoolState) : Nat → PoolState
  | 0 => s
  | n + 1 =>
    let c := createObject s
    initFill { c.2 with pool := c.1 :: c.2.pool
                        allocedCount := c.2.allocedCount + 1 } n

/-- `ObjectPool::ObjectPool(initialSize, maxSize, ...)`. -/
def initPool (initialSize maxSize : Nat) (hasPre hasPost hasFinal : Bool) : PoolState :=
  initFill (mkEmpty maxSize hasPre hasPost hasFinal) initialSize

/-- `ObjectPool::acquire()`: if `m_pool` is non-empty, move out the back
element; else if `m_allocedCount < m_maxSize`, create a new instance and
increment the counter; else return the empty pointer.  On a non-empty
result, `m_preProcess` (if set) is invoked before returning. -/
def acquire (s : PoolState) : Option Nat × PoolState × List Event :=
  match s.pool with
  | x :: rest =>
    (some x, { s with pool := rest }, if s.hasPre then [Event.preProcess x] else [])
  | [] =>
    if s.allocedCount < s.maxSize then
      let c := createObject s
      (some c.1, { c.2 with allocedCount := c.2.allocedCount + 1 },
       if s.hasPre then [Event.preProcess c.1] else [])
    else
      (none, s, [])

/-- `ObjectPool::release(obj, delay)`.  A null `obj` returns immediately.
With `delay == 0`: invoke `m_postProcess` (if set), then push the instance
back iff `m_pool.size() < m_maxSize`; otherwise the by-value parameter's
destruction at the end of the call (last reference, see header comment)
runs the custom deleter.  With `delay > 0`: push an
`(expiry = now + delay, obj)` entry onto `m_delayedQueue`; no hook runs. -/
def release (s : PoolState) (obj : Option Nat) (delay : Nat) : PoolState × List Event :=
  match obj with
  | none => (s, [])
  | some id =>
    if delay = 0 then
      let evs := if s.hasPost then [Event.postProcess id] else []
      if s.pool.length < s.maxSize then
        ({ s with pool := id :: s.pool }, evs)
      else
        let d := runDeleter s id
        (d.1, evs ++ d.2)
    else
      ({ s with delayedQueue := (s.clock + delay, id) :: s.delayedQueue }, [])

/-- `ObjectPool::getAvailableCount()`. -/
def getAvailableCount (s : PoolState) : Nat :=
  s.pool.length

/-- One iteration of the second loop of `processExpiredObjects`: invoke
`m_postProcess` (if set), then push back iff `m_pool.size() < m_maxSize`;
otherwise the popped `shared_ptr` drops at the end of the iteration and
the custom deleter runs. -/
def migrateStep (acc : PoolState × List Event) (e : Nat × Nat) : PoolState × List Event :=
  let evs1 := acc.2 ++ (if acc.1.hasPost then [Event.postProcess e.2] else [])
  if acc.1.pool.length < acc.1.maxSize then
    ({ acc.1 with pool := e.2 :: acc.1.pool }, evs1)
  else
    let d := runDeleter acc.1 e.2
    (d.1, evs1 ++ d.2)

/-- `ObjectPool::processExpiredObjects()`: pop every entry whose expiry is
at or before `now` (a prefix pop on the min-heap), then re-admit each
popped instance subject to the capacity check. -/
def processExpiredObjects (s : PoolState) : PoolState × List Event :=
  let expired := s.delayedQueue.filter (fun e => decide (e.1 ≤ s.clock))
  let remaining := s.delayedQueue.filter (fun e => decide (s.clock < e.1))
  expired.foldl migrateStep ({ s with delayedQueue := remaining }, [])

/-- One iteration of the delayed-queue drain loop in `ObjectPool::clear()`:
pop an entry, invoke `m_postProcess` (if set) on it; the popped
`shared_ptr` (sole owner) then drops and the custom deleter runs. -/
def drainDelayedStep (acc : PoolState × List Event) (e : Nat × Nat) : PoolState × List Event :=
  let evs1 := acc.2 ++ (if acc.1.hasPost then [Event.postProcess e.2] else [])
  let d := runDeleter acc.1 e.2
  (d.1, evs1 ++ d.2)

/-- The first half of `ObjectPool::clear()`: `while (!m_delayedQueue.empty())`
pop and post-process every entry (the source pops in expiry order; the
model folds over the stored entries — no property below depends on the
inter-entry order). -/
def drainDelayed (s : PoolState) : PoolState × List Event :=
  s.delayedQueue.foldl drainDelayedStep ({ s with delayedQueue := [] }, [])

/-- Destruction of one `shared_ptr` element during `m_pool.clear()`: the
custom deleter runs. -/
def drainPoolStep (acc : PoolState × List Event) (id : Nat) : PoolState × List Event :=
  let d := runDeleter acc.1 id
  (d.1, acc.2 ++ d.2)

/-- `ObjectPool::clear()`: drain the delayed queue (post-process hook per
entry, then the entry's last reference drops), then `m_pool.clear()`
(each stored `shared_ptr` is destroyed, running the custom deleter). -/
def clear (s : PoolState) : PoolState × List Event :=
  let d1 := drainDelayed s
  let d2 := d1.1.pool.foldl drainPoolStep (d1.1, [])
  ({ d2.1 with pool := [] }, d1.2 ++ d2.2)

/-- Disposal of an outstanding handle without explicit return while the
pool still exists: the `shared_ptr` reference count reaches zero and the
custom deleter (which captured `this`) runs. -/
def dropHandle (s : PoolState) (id : Nat) : PoolState × List Event :=
  runDeleter s id

/-- Client-visible operations, for quantifying over operation sequences. -/
inductive Op where
  | acquire
  | release (obj : Option Nat) (delay : Nat)
  | tick (d : Nat)
  | sweep
  | clear
deriving DecidableEq, Repr

/-- One operation applied to the pool state (events discarded). -/
def step (s : PoolState) : Op → PoolState
  | Op.acquire => (acquire s).2.1
  | Op.release obj d => (release s obj d).1
  | Op.tick d => { s with clock := s.clock + d }
  | Op.sweep => (processExpiredObjects s).1
  | Op.clear => (clear s).1

/-- A sequence of operations applied in order. -/
def run (s : PoolState) (ops : List Op) : PoolState :=
  ops.foldl step s

/-- Recognizer for post-release hook events. -/
def isPost : Event → Bool
  | Event.postProcess _ => true
  | _ => false

/-- Recognizer for final-teardown hook events. -/
def isFinal : Event → Bool
  | Event.finalProcess _ => true
  | _ => false

/-- Recognizer for destruction events. -/
def isDestroyed : Event → Bool
  | Event.destroyed _ => true
  | _ => false

/-- The event trace produced by draining the delayed queue in `clear`:
per entry, the post-release hook (if set), then the custom deleter
(final-teardown hook if set, then destruction). -/
def delayedDrainEvents (hPost hFinal : Bool) : List (Nat × Nat) → List Event
  | [] => []
  | e :: rest =>
    (if hPost then [Event.postProcess e.2] else []) ++
    ((if hFinal then [Event.finalProcess e.2] else []) ++ [Event.destroyed e.2]) ++
    delayedDrainEvents hPost hFinal rest

/-- The event trace produced by `m_pool.clear()`: per stored instance the
custom deleter runs (final-teardown hook if set, then destruction). -/
def poolDrainEvents (hFinal : Bool) : List Nat → List Event
  | [] => []
  | id :: rest =>
    ((if hFinal then [Event.finalProcess id] else []) ++ [Event.destroyed id]) ++
    poolDrainEvents hFinal rest

/-- `ObjectPool::acquire()` with allocation outcomes made explicit:
`allocOk = false` means the `new T(...)` inside `createObject` throws
`std::bad_alloc`.  `acquire` has no handler, so the exception propagates
to the caller (`Except.error`); no retry happens. -/
def acquireEx (s : PoolState) (allocOk : Bool) :
    Except Unit (Option Nat × PoolState × List Event) :=
  match s.pool with
  | x :: rest =>
    Except.ok (some x, { s with pool := rest },
      if s.hasPre then [Event.preProcess x] else [])
  | [] =>
    if s.allocedCount < s.maxSize then
      if allocOk then
        let c := createObject s
        Except.ok (some c.1, { c.2 with allocedCount := c.2.allocedCount + 1 },
          if s.hasPre then [Event.preProcess c.1] else [])
      else
        Except.error ()
    else
      Except.ok (none, s, [])

/-- The constructor's initial-fill loop with allocation outcomes made
explicit: `allocOk i` decides whether the i-th `new T(...)` succeeds.
The constructor catches `std::bad_alloc` only to log it and rethrows
(`throw;`), so a failure still propagates out (`Except.error`). -/
def initFillEx (allocOk : Nat → Bool) (i : Nat) (s : PoolState) :
    Nat → Except Unit PoolState
  | 0 => Except.ok s
  | n + 1 =>
    if allocOk i then
      let c := createObject s
      initFillEx allocOk (i + 1)
        { c.2 with pool := c.1 :: c.2.pool
                   allocedCount := c.2.allocedCount + 1 } n
    else
      Except.error ()

/-- `ObjectPool::ObjectPool(initialSize, maxSize, ...)` with allocation
outcomes made explicit. -/
def initPoolEx (initialSize maxSize : Nat) (hasPre hasPost hasFinal : Bool)
    (allocOk : Nat → Bool) : Except Unit PoolState :=
  initFillEx allocOk 0 (mkEmpty maxSize hasPre hasPost hasFinal) initialSize

/-- A concrete pool state with one available instance and one
pending-return entry, used for closed witnesses. -/
def sampleClearState : PoolState :=
  { pool := [7]
    delayedQueue := [(3, 5)]
    allocedCount := 2
    maxSize := 9
    hasPre := false
    hasPost := true
    hasFinal := true
    nextId := 8
    clock := 0 }

/-- A concrete pool state with one pending-return entry whose expiry is
9, used for closed witnesses; `clock` is a parameter. -/
def sampleDelayState (clock : Nat) : PoolState :=
  { pool := []
    delayedQueue := [(9, 2)]
    allocedCount := 1
    maxSize := 3
    hasPre := false
    hasPost := false
    hasFinal := false
    nextId := 3
    clock := clock }

/-! Theorems.  Shared lemmas come first; each claim is settled by exactly
one theorem, with a witness where the theorem carries hypotheses. -/

/-- C9: passing a null instance pointer to `release` is a complete no-op
for every delay value: no hook event is emitted and the pool state (the
available vector, the delayed queue, the allocation counter) is
unchanged. -/
theorem release_null_noop (s : PoolState) (delay : Nat) :
    release s none delay = (s, []) :=
  rfl

/-- C1 (amended): disposing an unreturned handle runs the custom deleter:
the available collection and the delayed queue are untouched (the
instance is NOT routed back through `release`, and no post-release hook
fires), the final-teardown hook fires iff it is currently set, the
instance is destroyed, and the allocation counter is decremented. -/
theorem dropHandle_never_returns_to_pool (s : PoolState) (id : Nat) :
    (dropHandle s id).1.pool = s.pool ∧
    (dropHandle s id).1.delayedQueue = s.delayedQueue ∧
    (dropHandle s id).1.allocedCount = s.allocedCount - 1 ∧
    (dropHandle s id).2 =
      (if s.hasFinal then [Event.finalProcess id] else []) ++ [Event.destroyed id] ∧
    Event.postProcess id ∉ (dropHandle s id).2 := by
  refine ⟨rfl, rfl, rfl, rfl, ?_⟩
  cases h : s.hasFinal <;> simp [dropHandle, runDeleter, h]

/-- Closed witness for `dropHandle_never_returns_to_pool` at a concrete
pool. -/
theorem dropHandle_never_returns_to_pool_witness :
    (dropHandle (initPool 1 1 false true true) 0).1.pool =
      (initPool 1 1 false true true).pool ∧
    Event.postProcess 0 ∉ (dropHandle (initPool 1 1 false true true) 0).2 :=
  ⟨(dropHandle_never_returns_to_pool (initPool 1 1 false true true) 0).1,
   (dropHandle_never_returns_to_pool (initPool 1 1 false true true) 0).2.2.2.2⟩

/-- C1 counterexample: with the pool still alive, acquire one instance
from a fresh pool and dispose the handle without returning it.  The claim
says disposal routes the instance back via `release` so it becomes
available again; in fact the deleter destroys it (final-teardown fires,
the instance is deleted) and the available count stays 0. -/
theorem dropHandle_claim_counterexample :
    getAvailableCount (dropHandle ((acquire (initPool 0 4 true true true)).2.1) 0).1 = 0 ∧
    (dropHandle ((acquire (initPool 0 4 true true true)).2.1) 0).2 =
      [Event.finalProcess 0, Event.destroyed 0] := by
  decide

/-- C2 (amended): `release` with delay 0 is NOT idempotent: a second call
on the same instance invokes the post-release hook a second time and, as
long as the available collection is below capacity, pushes the instance
again, creating a duplicate entry. -/
theorem release_twice_not_idempotent (s : PoolState) (id : Nat)
    (hpost : s.hasPost = true) (hroom : s.pool.length + 1 < s.maxSize) :
    release s (some id) 0 = ({ s with pool := id :: s.pool }, [Event.postProcess id]) ∧
    release { s with pool := id :: s.pool } (some id) 0 =
      ({ s with pool := id :: id :: s.pool }, [Event.postProcess id]) := by
  have h1 : s.pool.length < s.maxSize := by omega
  have h2 : s.pool.length + 1 < s.maxSize := hroom
  constructor
  · simp [release, hpost, h1]
  · simp [release, hpost, h2]

/-- Closed witness for `release_twice_not_idempotent` at a concrete
pool. -/
theorem release_twice_not_idempotent_witness :
    release (initPool 0 5 false true false) (some 7) 0 =
      ({ initPool 0 5 false true false with pool := [7] }, [Event.postProcess 7]) :=
  (release_twice_not_idempotent (initPool 0 5 false true false) 7 (by decide)
    (by decide)).1

/-- C2 counterexample: acquire one instance from a fresh pool (capacity 5)
and pass it to `release _ 0` twice.  The second call is not a no-op: the
post-release hook fires twice in total and the instance ends up in the
available collection twice. -/
theorem release_idempotent_counterexample :
    (release (release ((acquire (initPool 0 5 false true false)).2.1) (some 0) 0).1
        (some 0) 0).1.pool = [0, 0] ∧
    (release ((acquire (initPool 0 5 false true false)).2.1) (some 0) 0).2 =
      [Event.postProcess 0] ∧
    (release (release ((acquire (initPool 0 5 false true false)).2.1) (some 0) 0).1
        (some 0) 0).2 = [Event.postProcess 0] := by
  decide

/-- C6: releasing a non-null instance with delay 0 into a pool whose
available collection is already at or above `m_maxSize` does not push it;
the by-value handle's destruction runs the custom deleter, so the
final-teardown hook fires (if set), the instance is destroyed, and the
allocation counter is decremented. -/
theorem release_full_destroys (s : PoolState) (id : Nat)
    (hfull : s.maxSize ≤ s.pool.length) (halloc : 0 < s.allocedCount) :
    (release s (some id) 0).1.pool = s.pool ∧
    (release s (some id) 0).1.allocedCount + 1 = s.allocedCount ∧
    (s.hasFinal = true → Event.finalProcess id ∈ (release s (some id) 0).2) ∧
    Event.destroyed id ∈ (release s (some id) 0).2 := by
  have hl : ¬ s.pool.length < s.maxSize := by omega
  refine ⟨?_, ?_, ?_, ?_⟩
  · simp [release, runDeleter, hl]
  · simp only [release, runDeleter, hl, if_false]
    simp
    omega
  · intro hf
    simp [release, runDeleter, hl, hf]
  · cases hf : s.hasFinal <;> simp [release, runDeleter, hl, hf]

/-- Closed witness for `release_full_destroys` at a concrete full pool. -/
theorem release_full_destroys_witness :
    Event.destroyed 9 ∈ (release (initPool 2 2 false false true) (some 9) 0).2 :=
  (release_full_destroys (initPool 2 2 false false true) 9 (by decide)
    (by decide)).2.2.2

/-- C10: in `release` with delay 0 and the post-release hook set, the hook
fires exactly once on the non-null instance and it fires first (before
the capacity check), so it runs even when the collection is full and the
instance is subsequently destroyed rather than re-admitted. -/
theorem postProcess_once_per_release (s : PoolState) (id : Nat)
    (h : s.hasPost = true) :
    ((release s (some id) 0).2).count (Event.postProcess id) = 1 ∧
    ((release s (some id) 0).2).head? = some (Event.postProcess id) := by
  by_cases hl : s.pool.length < s.maxSize
  · simp [release, runDeleter, h, hl]
  · cases hf : s.hasFinal <;>
      simp [release, runDeleter, h, hl, hf, List.count_cons]

/-- Closed witness for `postProcess_once_per_release` at a concrete full
pool (the discard branch). -/
theorem postProcess_once_per_release_witness :
    ((release (initPool 2 2 false true true) (some 9) 0).2).count
      (Event.postProcess 9) = 1 :=
  (postProcess_once_per_release (initPool 2 2 false true true) 9 (by decide)).1

/-- One `migrateStep` keeps the capacity invariant and the capacity
bound itself. -/
theorem migrateStep_inv (acc : PoolState × List Event) (e : Nat × Nat)
    (h : acc.1.pool.length ≤ acc.1.maxSize) :
    (migrateStep acc e).1.pool.length ≤ (migrateStep acc e).1.maxSize ∧
    (migrateStep acc e).1.maxSize = acc.1.maxSize := by
  by_cases hl : acc.1.pool.length < acc.1.maxSize
  · simp [migrateStep, hl]
    omega
  · simp [migrateStep, runDeleter, hl]
    exact h

/-- Folding `migrateStep` keeps the capacity invariant and the capacity
bound itself. -/
theorem migrateFold_inv (l : List (Nat × Nat)) : ∀ acc : PoolState × List Event,
    acc.1.pool.length ≤ acc.1.maxSize →
    (l.foldl migrateStep acc).1.pool.length ≤ (l.foldl migrateStep acc).1.maxSize ∧
    (l.foldl migrateStep acc).1.maxSize = acc.1.maxSize := by
  induction l with
  | nil => exact fun acc h => ⟨h, rfl⟩
  | cons e rest ih =>
    intro acc h
    rw [List.foldl_cons]
    have hstep := migrateStep_inv acc e h
    have hrest := ih (migrateStep acc e) hstep.1
    exact ⟨hrest.1, hrest.2.trans hstep.2⟩

/-- Folding `drainDelayedStep` changes only the allocation counter and
the event trace. -/
theorem drainDelayedFold_state (l : List (Nat × Nat)) :
    ∀ acc : PoolState × List Event,
    (l.foldl drainDelayedStep acc).1.pool = acc.1.pool ∧
    (l.foldl drainDelayedStep acc).1.delayedQueue = acc.1.delayedQueue ∧
    (l.foldl drainDelayedStep acc).1.maxSize = acc.1.maxSize ∧
    (l.foldl drainDelayedStep acc).1.hasPost = acc.1.hasPost ∧
    (l.foldl drainDelayedStep acc).1.hasFinal = acc.1.hasFinal := by
  induction l with
  | nil => exact fun acc => ⟨rfl, rfl, rfl, rfl, rfl⟩
  | cons e rest ih =>
    intro acc
    rw [List.foldl_cons]
    exact ih (drainDelayedStep acc e)

/-- Folding `drainPoolStep` changes only the allocation counter and the
event trace. -/
theorem drainPoolFold_state (l : List Nat) : ∀ acc : PoolState × List Event,
    (l.foldl drainPoolStep acc).1.pool = acc.1.pool ∧
    (l.foldl drainPoolStep acc).1.delayedQueue = acc.1.delayedQueue ∧
    (l.foldl drainPoolStep acc).1.maxSize = acc.1.maxSize ∧
    (l.foldl drainPoolStep acc).1.hasPost = acc.1.hasPost ∧
    (l.foldl drainPoolStep acc).1.hasFinal = acc.1.hasFinal := by
  induction l with
  | nil => exact fun acc => ⟨rfl, rfl, rfl, rfl, rfl⟩
  | cons id rest ih =>
    intro acc
    rw [List.foldl_cons]
    exact ih (drainPoolStep acc id)

/-- After `clear`, both collections are empty and the capacity bound is
unchanged. -/
theorem clear_state (s : PoolState) :
    (clear s).1.pool = [] ∧ (clear s).1.delayedQueue = [] ∧
    (clear s).1.maxSize = s.maxSize := by
  refine ⟨rfl, ?_, ?_⟩
  · show ((drainDelayed s).1.pool.foldl drainPoolStep ((drainDelayed s).1, [])).1.delayedQueue = []
    rw [(drainPoolFold_state _ _).2.1]
    exact (drainDelayedFold_state _ _).2.1
  · show ((drainDelayed s).1.pool.foldl drainPoolStep ((drainDelayed s).1, [])).1.maxSize = s.maxSize
    rw [(drainPoolFold_state _ _).2.2.1]
    exact (drainDelayedFold_state _ _).2.2.1

/-- Every single operation keeps `pool.length ≤ maxSize` and leaves the
capacity bound unchanged. -/
theorem step_preserves (s : PoolState) (o : Op) (h : s.pool.length ≤ s.maxSize) :
    (step s o).pool.length ≤ (step s o).maxSize ∧ (step s o).maxSize = s.maxSize := by
  cases o with
  | acquire =>
    cases hp : s.pool with
    | nil =>
      by_cases hc : s.allocedCount < s.maxSize <;>
        simp [step, acquire, hp, hc, createObject]
    | cons x rest =>
      have : rest.length + 1 ≤ s.maxSize := by
        rw [hp] at h; simpa using h
      simp [step, acquire, hp]
      omega
  | release obj d =>
    cases obj with
    | none => exact ⟨h, rfl⟩
    | some id =>
      by_cases hd : d = 0
      · by_cases hl : s.pool.length < s.maxSize
        · simp [step, release, hd, hl]
          omega
        · simp [step, release, runDeleter, hd, hl]
          exact h
      · simp [step, release, hd]
        exact h
  | tick d => exact ⟨h, rfl⟩
  | sweep =>
    have := migrateFold_inv
      (s.delayedQueue.filter (fun e => decide (e.1 ≤ s.clock)))
      ({ s with delayedQueue :=
          s.delayedQueue.filter (fun e => decide (s.clock < e.1)) }, []) h
    exact this
  | clear =>
    have hc := clear_state s
    constructor
    · show (clear s).1.pool.length ≤ (clear s).1.maxSize
      rw [hc.1]
      simp
    · exact hc.2.2

/-- Running any operation sequence keeps `pool.length ≤ maxSize` and the
capacity bound. -/
theorem run_pool_le (ops : List Op) : ∀ s : PoolState,
    s.pool.length ≤ s.maxSize →
    (run s ops).pool.length ≤ (run s ops).maxSize ∧
    (run s ops).maxSize = s.maxSize := by
  induction ops with
  | nil => exact fun s h => ⟨h, rfl⟩
  | cons o rest ih =>
    intro s h
    have hs := step_preserves s o h
    have hr := ih (step s o) hs.1
    exact ⟨hr.1, hr.2.trans hs.2⟩

/-- The constructor's fill loop adds exactly `k` instances to the pool
vector and never touches the capacity bound. -/
theorem initFill_fields (k : Nat) : ∀ s : PoolState,
    (initFill s k).pool.length = s.pool.length + k ∧
    (initFill s k).maxSize = s.maxSize := by
  induction k with
  | zero => exact fun s => ⟨rfl, rfl⟩
  | succ n ih =>
    intro s
    have h := ih { (createObject s).2 with
                   pool := (createObject s).1 :: (createObject s).2.pool
                   allocedCount := (createObject s).2.allocedCount + 1 }
    refine ⟨?_, h.2⟩
    rw [show initFill s (n + 1) = initFill
      { (createObject s).2 with
        pool := (createObject s).1 :: (createObject s).2.pool
        allocedCount := (createObject s).2.allocedCount + 1 } n from rfl]
    rw [h.1]
    simp [createObject]
    omega

/-- C3 (amended): provided the initial fill size is at most the max
capacity, `getAvailableCount` never exceeds the max capacity, at every
observation point of every acquire/release/sweep/clear sequence starting
from a freshly constructed pool.  (Without that proviso the claim fails:
see the counterexample.) -/
theorem availableCount_le_maxSize (n m : Nat) (p q r : Bool) (h : n ≤ m)
    (ops : List Op) :
    getAvailableCount (run (initPool n m p q r) ops) ≤ m := by
  have hf := initFill_fields n (mkEmpty m p q r)
  have h0 : (initPool n m p q r).pool.length ≤ (initPool n m p q r).maxSize := by
    show (initFill (mkEmpty m p q r) n).pool.length ≤
      (initFill (mkEmpty m p q r) n).maxSize
    rw [hf.1, hf.2]
    simp [mkEmpty]
    exact h
  have hr := run_pool_le ops (initPool n m p q r) h0
  have hm : (initPool n m p q r).maxSize = m := by
    show (initFill (mkEmpty m p q r) n).maxSize = m
    rw [hf.2]
    rfl
  exact le_of_le_of_eq hr.1 (hr.2.trans hm)

/-- Closed witness for `availableCount_le_maxSize` on a concrete pool and
operation sequence. -/
theorem availableCount_le_maxSize_witness :
    getAvailableCount (run (initPool 2 3 false false false)
      [Op.acquire, Op.release (some 1) 0, Op.release (some 1) 0]) ≤ 3 :=
  availableCount_le_maxSize 2 3 false false false (by decide)
    [Op.acquire, Op.release (some 1) 0, Op.release (some 1) 0]

/-- C3 counterexample: the constructor's initial-fill loop performs no
capacity check, so a pool constructed with initial fill 3 and max
capacity 1 reports 3 available instances immediately after construction,
violating `availableCount() ≤ maxCapacity`. -/
theorem availableCount_le_maxSize_counterexample :
    ¬ getAvailableCount (run (initPool 3 1 false false false) []) ≤ 1 := by
  decide

/-- With a non-empty pool vector, `acquire` pops the back element (the
most recently pushed one). -/
theorem acquire_cons (s : PoolState) (x : Nat) (rest : List Nat)
    (h : s.pool = x :: rest) :
    acquire s = (some x, { s with pool := rest },
      if s.hasPre then [Event.preProcess x] else []) := by
  simp [acquire, h]

/-- With an empty pool vector and capacity headroom, `acquire` constructs
a fresh instance (from the fixed constructor arguments) and increments
the allocation counter. -/
theorem acquire_grow (s : PoolState) (hp : s.pool = [])
    (hc : s.allocedCount < s.maxSize) :
    acquire s = (some s.nextId,
      { s with nextId := s.nextId + 1, allocedCount := s.allocedCount + 1 },
      if s.hasPre then [Event.preProcess s.nextId] else []) := by
  simp [acquire, hp, hc, createObject]

/-- With an empty pool vector and no capacity headroom, `acquire` returns
the empty pointer without changing the state. -/
theorem acquire_exhausted (s : PoolState) (hp : s.pool = [])
    (hc : s.maxSize ≤ s.allocedCount) :
    acquire s = (none, s, []) := by
  have hn : ¬ s.allocedCount < s.maxSize := by omega
  simp [acquire, hp, hn]

/-- LIFO reuse: the instance most recently released (delay 0, room
available) is the one the next `acquire` returns. -/
theorem acquire_lifo (s : PoolState) (x : Nat)
    (hl : s.pool.length < s.maxSize) :
    (acquire (release s (some x) 0).1).1 = some x := by
  simp [release, acquire, hl]

/-- Running `k` acquires on a pool with an empty vector and headroom `k`
keeps the vector empty and raises the allocation counter by `k`. -/
theorem run_acquire_empty (k : Nat) : ∀ s : PoolState, s.pool = [] →
    s.allocedCount + k ≤ s.maxSize →
    (run s (List.replicate k Op.acquire)).pool = [] ∧
    (run s (List.replicate k Op.acquire)).allocedCount = s.allocedCount + k ∧
    (run s (List.replicate k Op.acquire)).maxSize = s.maxSize := by
  induction k with
  | zero =>
    intro s hp _
    exact ⟨hp, rfl, rfl⟩
  | succ n ih =>
    intro s hp hle
    have hc : s.allocedCount < s.maxSize := by omega
    have hstep : step s Op.acquire =
        { s with nextId := s.nextId + 1, allocedCount := s.allocedCount + 1 } := by
      show (acquire s).2.1 = _
      rw [acquire_grow s hp hc]
    have hrec := ih { s with nextId := s.nextId + 1,
                             allocedCount := s.allocedCount + 1 }
      hp (by show s.allocedCount + 1 + n ≤ s.maxSize; omega)
    rw [List.replicate_succ]
    rw [show run s (Op.acquire :: List.replicate n Op.acquire) =
        run (step s Op.acquire) (List.replicate n Op.acquire) from rfl]
    rw [hstep]
    refine ⟨hrec.1, ?_, hrec.2.2⟩
    rw [hrec.2.1]
    show s.allocedCount + 1 + n = s.allocedCount + (n + 1)
    omega

/-- Exhaustion: from a pool with initial fill 0 and max capacity `N`,
after `N` acquires (no returns) the next `acquire` yields the empty
pointer. -/
theorem acquire_after_fill (N : Nat) (p q r : Bool) :
    (acquire (run (initPool 0 N p q r) (List.replicate N Op.acquire))).1 = none := by
  have h := run_acquire_empty N (mkEmpty N p q r) rfl
    (by show (0 : Nat) + N ≤ N; omega)
  rw [show initPool 0 N p q r = mkEmpty N p q r from rfl]
  rw [acquire_exhausted (run (mkEmpty N p q r) (List.replicate N Op.acquire)) h.1
    (by rw [h.2.1, h.2.2]; show N ≤ 0 + N; omega)]

/-- C5: the exact `acquire` contract: (1) with a non-empty available
vector it pops and returns the most recently pushed instance (LIFO); (2)
otherwise with `allocedCount < maxSize` it constructs and returns a fresh
instance; (3) otherwise it returns the empty pointer and leaves the state
unchanged (it never blocks: `acquire` is a total function); (4) the
instance most recently released is the next one acquired; (5) with max
capacity `N`, initial fill 0 and no returns, the (N+1)-th acquire yields
the empty pointer, not a new instance. -/
theorem acquire_contract :
    (∀ (s : PoolState) (x : Nat) (rest : List Nat), s.pool = x :: rest →
        acquire s = (some x, { s with pool := rest },
          if s.hasPre then [Event.preProcess x] else [])) ∧
    (∀ s : PoolState, s.pool = [] → s.allocedCount < s.maxSize →
        acquire s = (some s.nextId,
          { s with nextId := s.nextId + 1, allocedCount := s.allocedCount + 1 },
          if s.hasPre then [Event.preProcess s.nextId] else [])) ∧
    (∀ s : PoolState, s.pool = [] → s.maxSize ≤ s.allocedCount →
        acquire s = (none, s, [])) ∧
    (∀ (s : PoolState) (x : Nat), s.pool.length < s.maxSize →
        (acquire (release s (some x) 0).1).1 = some x) ∧
    (∀ (N : Nat) (p q r : Bool),
        (acquire (run (initPool 0 N p q r) (List.replicate N Op.acquire))).1 = none) :=
  ⟨acquire_cons, acquire_grow, acquire_exhausted, acquire_lifo, acquire_after_fill⟩

/-- Closed witness for `acquire_contract` at concrete pools. -/
theorem acquire_contract_witness :
    (acquire { pool := [5], delayedQueue := [], allocedCount := 1, maxSize := 3,
               hasPre := false, hasPost := false, hasFinal := false,
               nextId := 6, clock := 0 }).1 = some 5 ∧
    (acquire (run (initPool 0 2 false false false)
        (List.replicate 2 Op.acquire))).1 = none := by
  constructor
  · rw [acquire_contract.1 _ 5 [] rfl]
  · exact acquire_contract.2.2.2.2 2 false false false

/-- A failed allocation anywhere in the constructor's fill loop
propagates out as an error. -/
theorem initFillEx_fail (allocOk : Nat → Bool) (n : Nat) :
    ∀ (i : Nat) (s : PoolState),
    (∃ j, j < n ∧ allocOk (i + j) = false) →
    initFillEx allocOk i s n = Except.error () := by
  induction n with
  | zero =>
    rintro i s ⟨j, hj, _⟩
    exact absurd hj (Nat.not_lt_zero j)
  | succ m ih =>
    rintro i s ⟨j, hj, hfail⟩
    by_cases h0 : allocOk i = true
    · have hjne : j ≠ 0 := by
        rintro rfl
        rw [Nat.add_zero] at hfail
        rw [h0] at hfail
        exact Bool.noConfusion hfail
      obtain ⟨j2, rfl⟩ : ∃ j2, j = j2 + 1 := ⟨j - 1, by omega⟩
      have hnext : ∃ j3, j3 < m ∧ allocOk (i + 1 + j3) = false :=
        ⟨j2, by omega, by rw [show i + 1 + j2 = i + (j2 + 1) by omega]; exact hfail⟩
      show initFillEx allocOk i s (m + 1) = Except.error ()
      rw [show initFillEx allocOk i s (m + 1) =
          if allocOk i then
            initFillEx allocOk (i + 1)
              { (createObject s).2 with
                pool := (createObject s).1 :: (createObject s).2.pool
                allocedCount := (createObject s).2.allocedCount + 1 } m
          else Except.error () from rfl]
      rw [if_pos h0]
      exact ih (i + 1) _ hnext
    · rw [show initFillEx allocOk i s (m + 1) =
          if allocOk i then
            initFillEx allocOk (i + 1)
              { (createObject s).2 with
                pool := (createObject s).1 :: (createObject s).2.pool
                allocedCount := (createObject s).2.allocedCount + 1 } m
          else Except.error () from rfl]
      rw [if_neg h0]

/-- C8: construction failure is always propagated, never swallowed: an
allocation failure during the lazy-creation path of `acquire` makes the
call itself error out, and an allocation failure anywhere during the
constructor's eager initial fill makes the constructor error out. -/
theorem alloc_failure_propagates :
    (∀ s : PoolState, s.pool = [] → s.allocedCount < s.maxSize →
        acquireEx s false = Except.error ()) ∧
    (∀ (n m : Nat) (p q r : Bool) (allocOk : Nat → Bool),
        (∃ i, i < n ∧ allocOk i = false) →
        initPoolEx n m p q r allocOk = Except.error ()) := by
  constructor
  · intro s hp hc
    simp [acquireEx, hp, hc]
  · rintro n m p q r allocOk ⟨i, hi, hf⟩
    exact initFillEx_fail allocOk n 0 (mkEmpty m p q r) ⟨i, hi, by simpa using hf⟩

/-- Closed witness for `alloc_failure_propagates` at concrete inputs. -/
theorem alloc_failure_propagates_witness :
    acquireEx (mkEmpty 3 false false false) false = Except.error () ∧
    initPoolEx 2 5 false false false (fun _ => false) = Except.error () := by
  constructor
  · exact alloc_failure_propagates.1 (mkEmpty 3 false false false) rfl (by decide)
  · exact alloc_failure_propagates.2 2 5 false false false (fun _ => false)
      ⟨0, by decide, rfl⟩

/-- The trace of the delayed-queue drain fold is the trace predicted by
`delayedDrainEvents`. -/
theorem drainDelayedFold_events (l : List (Nat × Nat)) :
    ∀ acc : PoolState × List Event,
    (l.foldl drainDelayedStep acc).2 =
      acc.2 ++ delayedDrainEvents acc.1.hasPost acc.1.hasFinal l := by
  induction l with
  | nil => intro acc; simp [delayedDrainEvents]
  | cons e rest ih =>
    intro acc
    rw [List.foldl_cons]
    rw [ih (drainDelayedStep acc e)]
    simp [drainDelayedStep, runDeleter, delayedDrainEvents]

/-- The trace of the pool drain fold is the trace predicted by
`poolDrainEvents`. -/
theorem drainPoolFold_events (l : List Nat) : ∀ acc : PoolState × List Event,
    (l.foldl drainPoolStep acc).2 = acc.2 ++ poolDrainEvents acc.1.hasFinal l := by
  induction l with
  | nil => intro acc; simp [poolDrainEvents]
  | cons id rest ih =>
    intro acc
    rw [List.foldl_cons]
    rw [ih (drainPoolStep acc id)]
    simp [drainPoolStep, runDeleter, poolDrainEvents]

/-- The full event trace of `clear`. -/
theorem clear_events (s : PoolState) :
    (clear s).2 = delayedDrainEvents s.hasPost s.hasFinal s.delayedQueue ++
      poolDrainEvents s.hasFinal s.pool := by
  have h1 : (drainDelayed s).2 =
      delayedDrainEvents s.hasPost s.hasFinal s.delayedQueue := by
    show (s.delayedQueue.foldl drainDelayedStep
      ({ s with delayedQueue := [] }, [])).2 = _
    rw [drainDelayedFold_events]
    simp
  have h2 : (drainDelayed s).1.pool = s.pool :=
    (drainDelayedFold_state s.delayedQueue ({ s with delayedQueue := [] }, [])).1
  have h3 : (drainDelayed s).1.hasFinal = s.hasFinal :=
    (drainDelayedFold_state s.delayedQueue ({ s with delayedQueue := [] }, [])).2.2.2.2
  show (drainDelayed s).2 ++
      ((drainDelayed s).1.pool.foldl drainPoolStep ((drainDelayed s).1, [])).2 = _
  rw [drainPoolFold_events]
  simp [h1, h2, h3]

/-- How many post-release events the delayed drain emits. -/
theorem ddE_countP_post (hP hF : Bool) (l : List (Nat × Nat)) :
    (delayedDrainEvents hP hF l).countP isPost = if hP then l.length else 0 := by
  induction l with
  | nil => cases hP <;> simp [delayedDrainEvents]
  | cons e rest ih =>
    cases hP <;> cases hF <;>
      simp [delayedDrainEvents, List.countP_append, List.countP_cons,
        isPost, ih]

/-- How many final-teardown events the delayed drain emits. -/
theorem ddE_countP_final (hP hF : Bool) (l : List (Nat × Nat)) :
    (delayedDrainEvents hP hF l).countP isFinal = if hF then l.length else 0 := by
  induction l with
  | nil => cases hF <;> simp [delayedDrainEvents]
  | cons e rest ih =>
    cases hP <;> cases hF <;>
      simp [delayedDrainEvents, List.countP_append, List.countP_cons,
        isFinal, ih]

/-- How many destruction events the delayed drain emits. -/
theorem ddE_countP_destroyed (hP hF : Bool) (l : List (Nat × Nat)) :
    (delayedDrainEvents hP hF l).countP isDestroyed = l.length := by
  induction l with
  | nil => simp [delayedDrainEvents]
  | cons e rest ih =>
    cases hP <;> cases hF <;>
      simp [delayedDrainEvents, List.countP_append, List.countP_cons,
        isDestroyed, ih]

/-- Destructions in the delayed drain concern queue entries only. -/
theorem ddE_destroyed_src (hP hF : Bool) (l : List (Nat × Nat)) (id : Nat)
    (h : Event.destroyed id ∈ delayedDrainEvents hP hF l) :
    ∃ e, (e, id) ∈ l := by
  induction l with
  | nil => simp [delayedDrainEvents] at h
  | cons e rest ih =>
    rw [delayedDrainEvents] at h
    rcases List.mem_append.mp h with h1 | h2
    · rcases List.mem_append.mp h1 with h3 | h4
      · cases hP <;> simp at h3
      · rcases List.mem_append.mp h4 with h5 | h6
        · cases hF <;> simp at h5
        · simp at h6
          exact ⟨e.1, by rw [h6]; exact List.mem_cons_self _ _⟩
    · obtain ⟨e2, he2⟩ := ih h2
      exact ⟨e2, List.mem_cons_of_mem _ he2⟩

/-- How many post-release events the pool drain emits: none. -/
theorem pdE_countP_post (hF : Bool) (l : List Nat) :
    (poolDrainEvents hF l).countP isPost = 0 := by
  induction l with
  | nil => simp [poolDrainEvents]
  | cons id rest ih =>
    cases hF <;>
      simp [poolDrainEvents, List.countP_append, List.countP_cons, isPost, ih]

/-- How many final-teardown events the pool drain emits. -/
theorem pdE_countP_final (hF : Bool) (l : List Nat) :
    (poolDrainEvents hF l).countP isFinal = if hF then l.length else 0 := by
  induction l with
  | nil => cases hF <;> simp [poolDrainEvents]
  | cons id rest ih =>
    cases hF <;>
      simp [poolDrainEvents, List.countP_append, List.countP_cons,
        isFinal, ih]

/-- How many destruction events the pool drain emits. -/
theorem pdE_countP_destroyed (hF : Bool) (l : List Nat) :
    (poolDrainEvents hF l).countP isDestroyed = l.length := by
  induction l with
  | nil => simp [poolDrainEvents]
  | cons id rest ih =>
    cases hF <;>
      simp [poolDrainEvents, List.countP_append, List.countP_cons,
        isDestroyed, ih]

/-- Destructions in the pool drain concern stored instances only. -/
theorem pdE_destroyed_src (hF : Bool) (l : List Nat) (id : Nat)
    (h : Event.destroyed id ∈ poolDrainEvents hF l) : id ∈ l := by
  induction l with
  | nil => simp [poolDrainEvents] at h
  | cons x rest ih =>
    rw [poolDrainEvents] at h
    rcases List.mem_append.mp h with h1 | h2
    · rcases List.mem_append.mp h1 with h3 | h4
      · cases hF <;> simp at h3
      · simp at h4
        rw [h4]
        exact List.mem_cons_self _ _
    · exact List.mem_cons_of_mem _ (ih h2)

/-- C4 (amended): `clear()` drains BOTH collections, not just the
available one.  Afterwards the delayed queue is empty (entries that were
pending-return are gone, not preserved) and the available collection is
empty.  Per drained delayed entry the post-release hook (if set) fires
and the entry is destroyed (final-teardown if set); per drained available
instance the custom deleter fires (final-teardown if set, then
destruction).  Instances on loan are unaffected: every destruction event
concerns an instance that was in one of the two collections. -/
theorem clear_drains_available_and_delayed (s : PoolState) :
    (clear s).1.delayedQueue = [] ∧
    (clear s).1.pool = [] ∧
    (clear s).2.countP isPost = (if s.hasPost then s.delayedQueue.length else 0) ∧
    (clear s).2.countP isFinal =
      (if s.hasFinal then s.delayedQueue.length + s.pool.length else 0) ∧
    (clear s).2.countP isDestroyed = s.delayedQueue.length + s.pool.length ∧
    (∀ id, Event.destroyed id ∈ (clear s).2 →
      (∃ e, (e, id) ∈ s.delayedQueue) ∨ id ∈ s.pool) := by
  have hs := clear_state s
  have he := clear_events s
  refine ⟨hs.2.1, hs.1, ?_, ?_, ?_, ?_⟩
  · rw [he, List.countP_append, ddE_countP_post, pdE_countP_post]
    omega
  · rw [he, List.countP_append, ddE_countP_final, pdE_countP_final]
    cases s.hasFinal <;> simp
  · rw [he, List.countP_append, ddE_countP_destroyed, pdE_countP_destroyed]
  · intro id hmem
    rw [he] at hmem
    rcases List.mem_append.mp hmem with h1 | h2
    · exact Or.inl (ddE_destroyed_src _ _ _ _ h1)
    · exact Or.inr (pdE_destroyed_src _ _ _ h2)

/-- Closed witness for `clear_drains_available_and_delayed` at a concrete
pool holding one available instance and one pending-return entry. -/
theorem clear_drains_available_and_delayed_witness :
    (clear sampleClearState).1.delayedQueue = [] ∧
    ((∃ e, (e, 5) ∈ sampleClearState.delayedQueue) ∨
      5 ∈ sampleClearState.pool) :=
  ⟨(clear_drains_available_and_delayed sampleClearState).1,
   (clear_drains_available_and_delayed sampleClearState).2.2.2.2.2 5 (by decide)⟩

/-- C4 counterexample: an entry sitting in the delayed queue before
`clear()` is NOT still in the delayed queue afterwards — `clear()` drains
the queue.  Concretely: acquire from a fresh pool, release with delay 7,
then call `clear()`; the queue goes from one entry to empty. -/
theorem clear_leaves_delayed_counterexample :
    (run (initPool 0 5 false false false)
      [Op.acquire, Op.release (some 0) 7]).delayedQueue = [(7, 0)] ∧
    (clear (run (initPool 0 5 false false false)
      [Op.acquire, Op.release (some 0) 7])).1.delayedQueue = [] := by
  decide

/-- Instances already in the pool vector stay there through the sweep
fold (the fold only adds or leaves the vector). -/
theorem migrateFold_pool_mono (l : List (Nat × Nat)) :
    ∀ (acc : PoolState × List Event) (y : Nat),
    y ∈ acc.1.pool → y ∈ (l.foldl migrateStep acc).1.pool := by
  induction l with
  | nil => exact fun acc y h => h
  | cons e rest ih =>
    intro acc y h
    rw [List.foldl_cons]
    refine ih (migrateStep acc e) y ?_
    by_cases hl : acc.1.pool.length < acc.1.maxSize
    · simp [migrateStep, hl]
      exact Or.inr h
    · simp [migrateStep, runDeleter, hl]
      exact h

/-- Instances in the pool vector after the sweep fold were already there
or came from a processed entry. -/
theorem migrateFold_pool_src (l : List (Nat × Nat)) :
    ∀ (acc : PoolState × List Event) (y : Nat),
    y ∈ (l.foldl migrateStep acc).1.pool →
    y ∈ acc.1.pool ∨ ∃ e, (e, y) ∈ l := by
  induction l with
  | nil => exact fun acc y h => Or.inl h
  | cons e rest ih =>
    intro acc y h
    rw [List.foldl_cons] at h
    rcases ih (migrateStep acc e) y h with h1 | ⟨e2, h2⟩
    · by_cases hl : acc.1.pool.length < acc.1.maxSize
      · simp [migrateStep, hl] at h1
        rcases h1 with rfl | h3
        · exact Or.inr ⟨e.1, List.mem_cons_self _ _⟩
        · exact Or.inl h3
      · simp [migrateStep, runDeleter, hl] at h1
        exact Or.inl h1
    · exact Or.inr ⟨e2, List.mem_cons_of_mem _ h2⟩

/-- When the pool vector has room for the whole processed batch, every
processed entry ends up in the vector. -/
theorem migrateFold_all_fit (l : List (Nat × Nat)) :
    ∀ acc : PoolState × List Event,
    acc.1.pool.length + l.length ≤ acc.1.maxSize →
    ∀ p ∈ l, p.2 ∈ (l.foldl migrateStep acc).1.pool := by
  induction l with
  | nil =>
    intro acc _ p hp
    simp at hp
  | cons e rest ih =>
    intro acc hcap p hp
    have hl : acc.1.pool.length < acc.1.maxSize := by
      simp at hcap
      omega
    have hstep : migrateStep acc e =
        ({ acc.1 with pool := e.2 :: acc.1.pool },
         acc.2 ++ (if acc.1.hasPost then [Event.postProcess e.2] else [])) := by
      simp [migrateStep, hl]
    rw [List.foldl_cons, hstep]
    rcases List.mem_cons.mp hp with rfl | hrest
    · exact migrateFold_pool_mono rest _ p.2 (List.mem_cons_self _ _)
    · refine ih _ ?_ p hrest
      simp at hcap ⊢
      omega

/-- The sweep fold never touches the delayed queue (the source pops the
expired entries before the fold). -/
theorem migrateFold_queue (l : List (Nat × Nat)) : ∀ acc : PoolState × List Event,
    (l.foldl migrateStep acc).1.delayedQueue = acc.1.delayedQueue := by
  induction l with
  | nil => exact fun acc => rfl
  | cons e rest ih =>
    intro acc
    rw [List.foldl_cons, ih (migrateStep acc e)]
    by_cases hl : acc.1.pool.length < acc.1.maxSize <;>
      simp [migrateStep, runDeleter, hl]

/-- C7 (amended): (1) releasing with delay D > 0 leaves the available
collection unchanged, fires no hook, and queues the instance with expiry
`now + D`; (2) a sweep strictly before the expiry leaves the entry queued
and does not make the instance available; (3) a sweep at or after the
expiry makes the instance available, provided the available collection
has room for the whole expired batch (the unamended claim fails when the
collection is full at sweep time: see the counterexample). -/
theorem delayed_release_timing :
    (∀ (s : PoolState) (x D : Nat), 0 < D →
        (release s (some x) D).1.pool = s.pool ∧
        (release s (some x) D).2 = [] ∧
        (s.clock + D, x) ∈ (release s (some x) D).1.delayedQueue) ∧
    (∀ (s : PoolState) (e x : Nat),
        (e, x) ∈ s.delayedQueue → s.clock < e →
        (∀ e2, (e2, x) ∈ s.delayedQueue → e2 = e) →
        x ∉ s.pool →
        (e, x) ∈ (processExpiredObjects s).1.delayedQueue ∧
        x ∉ (processExpiredObjects s).1.pool) ∧
    (∀ (s : PoolState) (e x : Nat),
        (e, x) ∈ s.delayedQueue → e ≤ s.clock →
        s.pool.length +
          (s.delayedQueue.filter (fun p => decide (p.1 ≤ s.clock))).length ≤
          s.maxSize →
        x ∈ (processExpiredObjects s).1.pool) := by
  refine ⟨?_, ?_, ?_⟩
  · intro s x D hD
    have hne : ¬ D = 0 := by omega
    refine ⟨?_, ?_, ?_⟩
    · simp [release, hne]
    · simp [release, hne]
    · simp [release, hne]
  · intro s e x hmem hlt huniq hnp
    constructor
    · rw [show (processExpiredObjects s).1.delayedQueue =
          ((s.delayedQueue.filter (fun p => decide (p.1 ≤ s.clock))).foldl
            migrateStep
            ({ s with delayedQueue :=
                s.delayedQueue.filter (fun p => decide (s.clock < p.1)) },
             [])).1.delayedQueue from rfl]
      rw [migrateFold_queue]
      show (e, x) ∈ s.delayedQueue.filter (fun p => decide (s.clock < p.1))
      rw [List.mem_filter]
      exact ⟨hmem, by simpa using hlt⟩
    · intro hx
      rcases migrateFold_pool_src _ _ _ hx with h1 | ⟨e2, h2⟩
      · exact hnp h1
      · rw [List.mem_filter] at h2
        have he2 : e2 = e := huniq e2 h2.1
        have : e2 ≤ s.clock := by simpa using h2.2
        omega
  · intro s e x hmem hle hcap
    have hx : (e, x) ∈ s.delayedQueue.filter (fun p => decide (p.1 ≤ s.clock)) := by
      rw [List.mem_filter]
      exact ⟨hmem, by simpa using hle⟩
    exact migrateFold_all_fit _ _ hcap (e, x) hx

/-- Closed witness for `delayed_release_timing` at concrete pools. -/
theorem delayed_release_timing_witness :
    (5, 4) ∈ (release (mkEmpty 3 false false false) (some 4) 5).1.delayedQueue ∧
    (9, 2) ∈ (processExpiredObjects (sampleDelayState 0)).1.delayedQueue ∧
    2 ∈ (processExpiredObjects (sampleDelayState 9)).1.pool := by
  refine ⟨?_, ?_, ?_⟩
  · exact (delayed_release_timing.1 (mkEmpty 3 false false false) 4 5
      (by decide)).2.2
  · exact (delayed_release_timing.2.1 (sampleDelayState 0) 9 2 (by decide)
      (by decide) (by intro e2 h; simp [sampleDelayState] at h; exact h)
      (by decide)).1
  · exact delayed_release_timing.2.2 (sampleDelayState 9) 9 2 (by decide)
      (by decide) (by decide)

/-- C7 counterexample: an instance released with delay 5 whose expiry has
passed and whose sweep has run is NOT present in the available collection
when the collection is full at sweep time — the sweep destroys it
instead.  (The pool here starts over-full because the constructor does
not cap the initial fill.) -/
theorem delayed_release_timing_counterexample :
    (run (initPool 2 1 false false false)
      [Op.acquire, Op.release (some 1) 5, Op.tick 5, Op.sweep]).delayedQueue = [] ∧
    1 ∉ (run (initPool 2 1 false false false)
      [Op.acquire, Op.release (some 1) 5, Op.tick 5, Op.sweep]).pool := by
  decide

end CppObjectPool
